import Mathlib

/-!
Verification development for the webllm-chat-kernel repository.

The definitions below are shallow embeddings of the TypeScript source:

* `src/models.ts` : `isValidWebLLMModel` (the catalog `WEBLLM_MODELS` comes
  from the external `prebuiltAppConfig.model_list`, so it is a parameter).
* `src/shareScope.ts` : `compareVersions`, `coerceModuleVersion`,
  `normalizeSharedScopeVersions` (version tables are association lists in
  JavaScript-object insertion order; `Array.prototype.sort` is modelled by a
  stable insertion sort, which is what the ECMAScript specification requires
  of `sort` for a consistent comparator).
* `src/index.ts` (federation segment) : `importShared`, `container.get`,
  the `WebLLMChatKernel` session methods `initializeModel` / `setModel` /
  `send`, and the `%chat list` branch of `WebLLMLiteKernel.handleMagic`.

Promises are modelled in two ways.  For single-call (sequential) claims a
big-step semantics is used where a stored promise is represented by its
settled outcome and each method returns `result x state-after x event trace`.
For the concurrency claim about two interleaved `initializeModel`
invocations, a small-step machine (`raceStep`) makes every JavaScript
suspension point (each `await`) explicit and quantifies over schedules.
-/

/-- `models.ts` line 31: `isValidWebLLMModel(id)` is
`WEBLLM_MODELS.includes(id)`.  The catalog is a parameter of the model. -/
def isValidWebLLMModel (models : List String) (id : String) : Bool :=
  models.contains id

/-! ## shareScope.ts -/

/-- Decimal digits read into a number (helper for the `parseInt` model). -/
def digitsToNat (l : List Char) : Nat :=
  l.foldl (fun a c => a * 10 + (c.toNat - Char.toNat '0')) 0

/-- Model of JavaScript `parseInt(part, 10) || 0` used by `compareVersions`
(`shareScope.ts` line 75): skip leading whitespace, read an optional sign and
then the longest digit prefix; if there are no digits `parseInt` yields `NaN`
and `|| 0` turns it into `0` (it also turns `-0` into `0`, which is the same
integer here). -/
def parseIntOr0 (cs0 : List Char) : Int :=
  let cs := cs0.dropWhile (fun c => c.isWhitespace)
  let signAndRest : Int × List Char :=
    match cs with
    | '-' :: t => (-1, t)
    | '+' :: t => (1, t)
    | _ => (1, cs)
  let digits := signAndRest.2.takeWhile Char.isDigit
  if digits.isEmpty then 0 else signAndRest.1 * (digitsToNat digits : Int)

/-- JavaScript `a.split(".")` on the character list: `"" ↦ [""]`,
`"1..2" ↦ ["1","","2"]`, and so on. -/
def splitDot : List Char → List (List Char)
  | [] => [[]]
  | c :: cs =>
    if c = '.' then [] :: splitDot cs
    else
      match splitDot cs with
      | [] => [[c]]
      | p :: ps => (c :: p) :: ps

/-- `a.split(".").map((part) => parseInt(part, 10) || 0)` from
`compareVersions` (`shareScope.ts` lines 75-76). -/
def versionParts (s : String) : List Int :=
  (splitDot s.data).map parseIntOr0

/-- The tail of the comparison loop once the first part list is exhausted:
each remaining step computes `(0) - (bParts[i] ?? 0)`. -/
def cmpZero : List Int → Int
  | [] => 0
  | b :: ys => if 0 - b ≠ 0 then 0 - b else cmpZero ys

/-- The comparison loop of `compareVersions` (`shareScope.ts` lines 77-84):
walk both part lists up to the longer length, treating a missing component as
`0` (`aParts[i] ?? 0`), and return the first non-zero difference, else `0`. -/
def cmpParts : List Int → List Int → Int
  | [], ys => cmpZero ys
  | a :: xs, [] => if a - 0 ≠ 0 then a - 0 else cmpParts xs []
  | a :: xs, b :: ys => if a - b ≠ 0 then a - b else cmpParts xs ys

/-- `compareVersions` (`shareScope.ts` lines 74-85). -/
def compareVersions (a b : String) : Int :=
  cmpParts (versionParts a) (versionParts b)

/-- Stable insertion of `x` into an already processed list: `x` goes in front
of the first element `y` with `compareVersions x y < 0`, i.e. after every
element it compares greater-or-equal to. -/
def insertSortedJS (x : String) : List String → List String
  | [] => [x]
  | y :: ys => if compareVersions x y < 0 then x :: y :: ys else y :: insertSortedJS x ys

/-- Model of `available.sort(compareVersions)` (`shareScope.ts` line 69).
ECMAScript requires `Array.prototype.sort` to be stable and, for a consistent
comparator, sorted; a stable insertion sort produces that unique output. -/
def sortJS (l : List String) : List String :=
  l.foldl (fun acc x => insertSortedJS x acc) []

/-- `coerceModuleVersion` (`shareScope.ts` lines 57-72) acting on one
provider's version table, given as an association list in object-key
insertion order.  If the target version is already a key, do nothing;
otherwise sort the keys with `compareVersions`, take the last (highest) one,
and append the alias `targetVersion ↦ versions[best]` (a fresh object key is
appended at the end of insertion order; no existing entry is touched).  The
source's separate `available.length === 0` early return coincides with the
`getLast? = none` branch here. -/
def coerceModuleVersion {V : Type} (tbl : List (String × V)) (targetVersion : String) :
    List (String × V) :=
  if (tbl.lookup targetVersion).isSome then tbl
  else
    match (sortJS (tbl.map Prod.fst)).getLast? with
    | none => tbl
    | some best =>
      match tbl.lookup best with
      | none => tbl
      | some v => tbl ++ [(targetVersion, v)]

/-- The `(name, minVersion)` pairs of `MINIMUM_VERSIONS`
(`shareScope.ts` lines 3-11). -/
def MINIMUM_VERSIONS : List (String × String) :=
  [("@jupyterlab/coreutils", "6.4.9"),
   ("@jupyterlab/application", "4.4.9"),
   ("@jupyterlab/ui-components", "4.4.9"),
   ("@jupyterlab/services", "7.4.9"),
   ("@jupyterlab/settingregistry", "4.4.9"),
   ("@jupyterlab/notebook", "4.4.9"),
   ("@jupyterlab/apputils", "4.5.9")]

/-- Apply `f` to the version table of provider `name` if present (the
`if (!versions) return` guard of `coerceModuleVersion`). -/
def updateProvider {V : Type} (scope : List (String × List (String × V))) (name : String)
    (f : List (String × V) → List (String × V)) : List (String × List (String × V)) :=
  scope.map (fun p => if p.1 = name then (p.1, f p.2) else p)

/-- `normalizeSharedScopeVersions` (`shareScope.ts` lines 47-55): run the
backfill for every `MINIMUM_VERSIONS` entry. -/
def normalizeSharedScopeVersions {V : Type} (scope : List (String × List (String × V))) :
    List (String × List (String × V)) :=
  MINIMUM_VERSIONS.foldl
    (fun sc nt => updateProvider sc nt.1 (fun tbl => coerceModuleVersion tbl nt.2)) scope

/-! ## importShared and the federation container (`src/index.ts` lines 176-239, 1019) -/

/-- A JavaScript value as far as `importShared`'s unwrapping is concerned:
a plain value (opaque, numbered), a zero-argument callable returning a
payload, or a promise/thenable settling to a payload. -/
inductive JSVal where
  | obj : Nat → JSVal
  | func : JSVal → JSVal
  | promise : JSVal → JSVal
deriving DecidableEq

/-- `result && typeof result.then === 'function'` (`index.ts` line 211). -/
def isThenable : JSVal → Bool
  | .promise _ => true
  | _ => false

/-- `typeof result === 'function'` (`index.ts` line 216). -/
def isFunction : JSVal → Bool
  | .func _ => true
  | _ => false

/-- `await result`: promise resolution follows chained thenables until a
non-thenable settled value is reached. -/
def awaitVal : JSVal → JSVal
  | .promise v => awaitVal v
  | v => v

/-- `result()` on a zero-argument callable yields its payload; on anything
else this is never invoked by the source (guarded by `typeof`). -/
def callVal : JSVal → JSVal
  | .func v => v
  | v => v

/-- One entry of a share-scope version table: `version?.get` may be missing
or not a function, modelled by `none`. -/
structure ShareVersion where
  get : Option (Unit → JSVal)

/-- A shared scope: provider name ↦ version table, in object-key order. -/
def ShareScopeT : Type := List (String × List (String × ShareVersion))

/-- `importShared` (`index.ts` lines 176-222).  `sharedScope` is the stored
scope (`none` if `init` was never called); `fallback` models
`window.__webpack_share_scopes__.default`.  Steps: resolve the scope, look up
the package, require a non-empty version table, pick the first enumerated
version, require a `get` factory, invoke it, await the result if it is a
thenable, and call it once more if the (settled) result is a function. -/
def importShared (sharedScope : Option ShareScopeT) (fallback : Option ShareScopeT)
    (pkg : String) : Except String JSVal :=
  match (match sharedScope with | some sc => some sc | none => fallback) with
  | none => .error ("Shared scope not initialized when requesting " ++ pkg)
  | some scope =>
    match scope.lookup pkg with
    | none => .error ("Shared module " ++ pkg ++ " not found in shared scope")
    | some versions =>
      match versions with
      | [] => .error ("No versions available for " ++ pkg)
      | (_, ver) :: _ =>
        match ver.get with
        | none => .error ("Module " ++ pkg ++ " has no factory function")
        | some factory =>
          let r0 := factory ()
          let r1 := if isThenable r0 then awaitVal r0 else r0
          let r2 := if isFunction r1 then callVal r1 else r1
          .ok r2

/-- The value the federation container's `get` hands back for an accepted
bundle id: the (single) lazy plugin-module loader defined inline at
`index.ts` lines 239-1016. -/
inductive BundleLoader where
  | pluginModule
deriving DecidableEq

/-- `container.get` (`index.ts` lines 232-239 and 1019): only `"./index"`
and `"./extension"` are accepted, both yielding the same plugin-module
loader; anything else rejects with the unknown-module error.  `get` reads
nothing and writes nothing: the stored shared scope is returned unchanged. -/
def containerGet (sharedScope : Option ShareScopeT) (module : String) :
    (Except String BundleLoader) × Option ShareScopeT :=
  if module = "./index" ∨ module = "./extension" then
    (.ok BundleLoader.pluginModule, sharedScope)
  else
    (.error ("[webllm-chat-kernel/federation] Unknown module: " ++ module), sharedScope)

/-! ## WebLLMChatKernel (sequential big-step model, `index.ts` lines 255-389) -/

/-- Externally observable engine-lifecycle events, in order of occurrence. -/
inductive Ev where
  | unload (engine : Nat)
  | constructCall (model : String)
  | constructOk (model : String) (engine : Nat)
  | constructFail (model : String) (msg : String)
  | streamRequest (prompt : String)
deriving DecidableEq

deriving instance DecidableEq for Except

/-- The `WebLLMChatKernel` instance fields (`index.ts` lines 256-259).
`initializationPromise` holds the settled outcome of the stored promise
(`none` when the field is `null`). -/
structure ChatState where
  modelName : Option String
  engine : Option Nat
  initialized : Bool
  initializationPromise : Option (Except String Unit)
deriving DecidableEq

/-- The construction tail of `initializeModel` (`index.ts` lines 285-304):
set `this.modelName`, call `CreateMLCEngine`; on success the `.then` callback
stores the engine and sets `initialized`, the `await` returns, and the
promise field is cleared; on rejection the `.then` callback never runs, the
`await` throws, and — crucially — the line `this.initializationPromise =
null` is never reached, so the rejected promise stays in the field. -/
def runConstruction (construct : String → Except String Nat) (m : String) (s : ChatState) :
    Except String Unit × ChatState × List Ev :=
  let s1 : ChatState := { s with modelName := some m }
  match construct m with
  | .ok eng =>
    (.ok (), { modelName := some m, engine := some eng, initialized := true,
               initializationPromise := none }, [.constructCall m, .constructOk m eng])
  | .error msg =>
    (.error msg, { s1 with initializationPromise := some (.error msg) },
      [.constructCall m, .constructFail m msg])

/-- `initializeModel` (`index.ts` lines 269-305), big-step: validate the
name; if a promise is stored for the same model, await it and return its
outcome; if a promise is stored for a different model, await it first (an
already-rejected promise rethrows right there); then run the construction. -/
def initializeModel (construct : String → Except String Nat) (models : List String)
    (m : String) (s : ChatState) : Except String Unit × ChatState × List Ev :=
  if ! isValidWebLLMModel models m then
    (.error ("Invalid model: " ++ m ++ ". Use %chat list to see available models."), s, [])
  else
    match s.initializationPromise with
    | some p =>
      if s.modelName = some m then
        (p, s, [])
      else
        match p with
        | .error msg => (.error msg, s, [])
        | .ok _ => runConstruction construct m s
    | none => runConstruction construct m s

/-- `setModel` (`index.ts` lines 311-333): validate (throwing before any
mutation), remember `wasInitialized`, unload an existing engine (clearing
`engine` / `initialized` / `initializationPromise`), reinitialize, and
report `"Model changed to: "` vs `"Model set to: "`. -/
def setModel (construct : String → Except String Nat) (models : List String)
    (m : String) (s : ChatState) : Except String String × ChatState × List Ev :=
  if ! isValidWebLLMModel models m then
    (.error ("Invalid model: " ++ m), s, [])
  else
    let wasInitialized := s.initialized
    let unloadStep : ChatState × List Ev :=
      match s.engine with
      | some g => ({ s with engine := none, initialized := false,
                            initializationPromise := none }, [Ev.unload g])
      | none => (s, [])
    match initializeModel construct models m unloadStep.1 with
    | (.error msg, s2, ev2) => (.error msg, s2, unloadStep.2 ++ ev2)
    | (.ok _, s2, ev2) =>
      (.ok ((if wasInitialized then "Model changed to: " else "Model set to: ") ++ m),
        s2, unloadStep.2 ++ ev2)

/-- One streamed chunk: `chunk.choices?.[0]?.delta?.content` may be absent. -/
structure Chunk where
  content : Option String
deriving DecidableEq

/-- `const content = chunk.choices?.[0]?.delta?.content || ""` (`index.ts`
line 377): an absent field becomes `""`; `"" || ""` is also `""`. -/
def chunkContent (c : Chunk) : String :=
  c.content.getD ""

/-- The accumulation loop of `send` (`index.ts` lines 375-384): for each
chunk in emission order, if its text is non-empty, append it to the reply
and invoke the callback with it.  Returns the list of callback invocations
(in order) and the accumulated reply. -/
def processChunks (chunks : List Chunk) : List String × String :=
  chunks.foldl
    (fun acc c =>
      let content := chunkContent c
      if content ≠ "" then (acc.1 ++ [content], acc.2 ++ content) else acc)
    ([], "")

/-- `send` (`index.ts` lines 349-388): lazily initialize with the default
model when not initialized, then require an engine, then stream.  The engine
reply is an oracle: `chunks` is the list the stream emits for this request. -/
def send (construct : String → Except String Nat) (models : List String)
    (defaultModel : String) (s : ChatState) (prompt : String) (chunks : List Chunk) :
    Except String (List String × String) × ChatState × List Ev :=
  let initStep : Except String Unit × ChatState × List Ev :=
    if ¬ s.initialized ∨ s.engine = none then
      initializeModel construct models defaultModel s
    else
      (.ok (), s, [])
  match initStep with
  | (.error msg, s1, ev1) => (.error msg, s1, ev1)
  | (.ok _, s1, ev1) =>
    match s1.engine with
    | none => (.error "Failed to initialize WebLLM engine", s1, ev1)
    | some _ =>
      (.ok (processChunks chunks), s1, ev1 ++ [Ev.streamRequest prompt])

/-! ## The `%chat list` branch of `handleMagic` (`index.ts` lines 404-424) -/

/-- Model of JavaScript `toLowerCase()` (character-wise lowering). -/
def jsToLower (s : String) : String :=
  String.mk (s.data.map Char.toLower)

/-- `hay.includes(needle)` on character lists: some suffix of `hay` starts
with `needle` (and `includes("")` is `true`). -/
def containsSub (hay needle : List Char) : Bool :=
  needle.isPrefixOf hay ||
    match hay with
    | [] => false
    | _ :: t => containsSub t needle

/-- The `filter` / `filtered` computation of the `list` branch (`index.ts`
lines 410-413): `filterArg` is the regex capture after `%chat list`; the
lowercased filter, when non-empty (JavaScript truthiness), selects the
models whose lowercased id contains it; an absent or empty filter keeps the
whole catalog. -/
def listFiltered (models : List String) (filterArg : Option String) : List String :=
  let filter := match filterArg with | some f => jsToLower f | none => ""
  if filter ≠ "" then
    models.filter (fun m => containsSub (jsToLower m).data filter.data)
  else models

/-- The response text of the `list` branch (`index.ts` lines 415-423). -/
def handleMagicList (models : List String) (filterArg : Option String) : String :=
  let filter := match filterArg with | some f => jsToLower f | none => ""
  let filtered := listFiltered models filterArg
  if filtered.length = 0 then
    "No models found matching \"" ++ filter ++ "\".\n\nUse \"%chat list\" to see all "
      ++ toString models.length ++ " available models."
  else
    let modelList := String.intercalate "\n  " filtered
    let header :=
      if filter ≠ "" then
        "Models matching \"" ++ filter ++ "\" (" ++ toString filtered.length ++ " of "
          ++ toString models.length ++ "):"
      else
        "All available models (" ++ toString models.length ++ "):"
    header ++ "\n  " ++ modelList ++ "\n\nUse \"%chat model <name>\" to switch models."

/-! ## Small-step race model for two interleaved `initializeModel` calls

Single-threaded JavaScript runs each invocation synchronously up to its first
`await`; interleaving happens only at `await` boundaries and at the moment
the engine-construction promise resolves.  Each task is one invocation of
`initializeModel(m)`; `engineResolve` is the environment step in which
`CreateMLCEngine`'s promise fulfils (running the `.then` callback that
stores the engine and sets `initialized`, and settling the stored promise).
A ghost flag `overlapViolated` records a schedule in which one invocation
only begins after the other has already completed — such a pair is
sequential, not interleaved. -/

/-- Program counter of one `initializeModel` invocation.  `awaitOwn k`:
this task started the construction and is awaiting promise `k` (on resume it
clears the promise field).  `awaitJoin k`: same-model re-entrant wait
(`index.ts` lines 275-278).  `awaitCross k`: different-model wait
(`index.ts` lines 281-283); on resume it starts its own construction. -/
inductive InitPc where
  | start
  | awaitOwn (k : Nat)
  | awaitJoin (k : Nat)
  | awaitCross (k : Nat)
  | finished
  | invalid
deriving DecidableEq

/-- Global configuration: both program counters, the `WebLLMChatKernel`
fields, the in-flight construction (if any), the set of settled promise ids,
a fresh-id counter, the number of `CreateMLCEngine` calls so far, and the
ghost overlap flag. -/
structure RaceConfig where
  pcA : InitPc
  pcB : InitPc
  modelName : Option String
  engine : Option Nat
  initialized : Bool
  initializationPromise : Option Nat
  flight : Option Nat
  settled : List Nat
  nextId : Nat
  constructCalls : Nat
  overlapViolated : Bool
deriving DecidableEq

/-- Has this invocation returned (normally or exceptionally)? -/
def InitPc.isDone : InitPc → Bool
  | .finished => true
  | .invalid => true
  | _ => false

/-- Start a construction (`index.ts` lines 285-303 up to the `await`): set
`modelName`, create the promise, record the `CreateMLCEngine` call, suspend. -/
def startConstruction (m : String) (c : RaceConfig) : InitPc × RaceConfig :=
  let k := c.nextId
  (.awaitOwn k,
    { c with modelName := some m, initializationPromise := some k, flight := some k,
             nextId := k + 1, constructCalls := c.constructCalls + 1 })

/-- The synchronous prefix of `initializeModel(m)` (`index.ts` lines
270-295): validity check, then the two promise branches, else start the
construction.  `otherDone` is the ghost check: entering while the other
invocation has already completed means the two were not interleaved. -/
def taskEntry (models : List String) (m : String) (otherDone : Bool) (c : RaceConfig) :
    InitPc × RaceConfig :=
  let c := if otherDone then { c with overlapViolated := true } else c
  if ! isValidWebLLMModel models m then (.invalid, c)
  else
    match c.initializationPromise with
    | some k => if c.modelName = some m then (.awaitJoin k, c) else (.awaitCross k, c)
    | none => startConstruction m c

/-- One scheduling step of a task: run the entry prefix, or resume from an
`await` once the awaited promise id has settled (a task whose promise is
still pending is simply not runnable and the step is a no-op). -/
def taskStep (models : List String) (m : String) (otherDone : Bool) (pc : InitPc)
    (c : RaceConfig) : InitPc × RaceConfig :=
  match pc with
  | .start => taskEntry models m otherDone c
  | .awaitOwn k =>
    if k ∈ c.settled then (.finished, { c with initializationPromise := none }) else (pc, c)
  | .awaitJoin k => if k ∈ c.settled then (.finished, c) else (pc, c)
  | .awaitCross k => if k ∈ c.settled then startConstruction m c else (pc, c)
  | .finished => (pc, c)
  | .invalid => (pc, c)

/-- The environment step: the in-flight `CreateMLCEngine` promise fulfils
with engine `e`; the `.then` callback (`index.ts` lines 297-301) stores the
engine and sets `initialized`, and the stored promise settles. -/
def engineStep (e : Nat) (c : RaceConfig) : RaceConfig :=
  match c.flight with
  | some k =>
    { c with engine := some e, initialized := true, settled := k :: c.settled,
             flight := none }
  | none => c

/-- A scheduler choice: run task A, run task B, or resolve the engine. -/
inductive RaceChoice where
  | taskA
  | taskB
  | engineResolve
deriving DecidableEq

/-- One step of the interleaved system. -/
def raceStep (models : List String) (m : String) (e : Nat) (c : RaceConfig) :
    RaceChoice → RaceConfig
  | .taskA =>
    let r := taskStep models m c.pcB.isDone c.pcA c
    { r.2 with pcA := r.1 }
  | .taskB =>
    let r := taskStep models m c.pcA.isDone c.pcB c
    { r.2 with pcB := r.1 }
  | .engineResolve => engineStep e c

/-- Both invocations pending on a fresh kernel. -/
def raceInit : RaceConfig :=
  { pcA := .start, pcB := .start, modelName := none, engine := none, initialized := false,
    initializationPromise := none, flight := none, settled := [], nextId := 0,
    constructCalls := 0, overlapViolated := false }

/-- Run a schedule. -/
def raceRun (models : List String) (m : String) (e : Nat) (chs : List RaceChoice) :
    RaceConfig :=
  chs.foldl (raceStep models m e) raceInit

/-! ## Properties of `compareVersions` (total preorder) -/

theorem cmpParts_neg (xs : List Int) : ∀ ys, cmpParts ys xs = - cmpParts xs ys := by
  induction xs with
  | nil =>
    intro ys
    induction ys with
    | nil => simp [cmpParts, cmpZero]
    | cons b bs ih =>
      simp only [cmpParts, cmpZero]
      by_cases hb : b - 0 ≠ 0
      · rw [if_pos hb, if_pos (by omega)]
        omega
      · rw [if_neg hb, if_neg (by omega)]
        exact ih
  | cons a xs ih =>
    intro ys
    cases ys with
    | nil =>
      simp only [cmpParts, cmpZero]
      by_cases ha : a - 0 ≠ 0
      · rw [if_pos (by omega), if_pos ha]
        omega
      · rw [if_neg (by omega), if_neg ha]
        exact ih []
    | cons b bs =>
      simp only [cmpParts]
      by_cases hd : a - b ≠ 0
      · rw [if_pos (by omega), if_pos hd]
        omega
      · rw [if_neg (by omega), if_neg hd]
        exact ih bs

theorem cmpParts_self (xs : List Int) : cmpParts xs xs = 0 := by
  induction xs with
  | nil => simp [cmpParts, cmpZero]
  | cons a xs ih => simpa [cmpParts] using ih

/-- Head with zero padding, as in `aParts[i] ?? 0`. -/
def hdZ (l : List Int) : Int := l.headD 0

theorem cmpParts_view (xs ys : List Int) :
    cmpParts xs ys =
      if hdZ xs - hdZ ys ≠ 0 then hdZ xs - hdZ ys else cmpParts xs.tail ys.tail := by
  cases xs <;> cases ys <;> simp [cmpParts, cmpZero, hdZ]

theorem cmpParts_le_trans (xs ys zs : List Int)
    (h1 : cmpParts xs ys ≤ 0) (h2 : cmpParts ys zs ≤ 0) : cmpParts xs zs ≤ 0 := by
  by_cases hz : xs = [] ∧ zs = []
  · rcases hz with ⟨hx, hzz⟩
    subst hx
    subst hzz
    simp [cmpParts, cmpZero]
  · have hxy : hdZ xs ≤ hdZ ys ∧ (hdZ xs = hdZ ys → cmpParts xs.tail ys.tail ≤ 0) := by
      rw [cmpParts_view] at h1
      by_cases d : hdZ xs - hdZ ys ≠ 0
      · rw [if_pos d] at h1
        exact ⟨by omega, fun he => by exfalso; omega⟩
      · rw [if_neg d] at h1
        exact ⟨by omega, fun _ => h1⟩
    have hyz : hdZ ys ≤ hdZ zs ∧ (hdZ ys = hdZ zs → cmpParts ys.tail zs.tail ≤ 0) := by
      rw [cmpParts_view] at h2
      by_cases d : hdZ ys - hdZ zs ≠ 0
      · rw [if_pos d] at h2
        exact ⟨by omega, fun he => by exfalso; omega⟩
      · rw [if_neg d] at h2
        exact ⟨by omega, fun _ => h2⟩
    rw [cmpParts_view]
    by_cases d : hdZ xs - hdZ zs ≠ 0
    · rw [if_pos d]
      have h3 := hxy.1
      have h4 := hyz.1
      omega
    · rw [if_neg d]
      have hxz : hdZ xs = hdZ zs := by omega
      have hxyeq : hdZ xs = hdZ ys := by
        have h3 := hxy.1
        have h4 := hyz.1
        omega
      exact cmpParts_le_trans xs.tail ys.tail zs.tail (hxy.2 hxyeq)
        (hyz.2 (by omega))
termination_by xs.length + zs.length
decreasing_by
  have hne : xs ≠ [] ∨ zs ≠ [] := by tauto
  rcases hne with h | h
  · have h5 : 0 < xs.length := List.length_pos.mpr h
    have h6 : xs.tail.length = xs.length - 1 := List.length_tail xs
    have h7 : zs.tail.length ≤ zs.length := by
      cases zs <;> simp [List.length_tail]
    omega
  · have h5 : 0 < zs.length := List.length_pos.mpr h
    have h6 : zs.tail.length = zs.length - 1 := List.length_tail zs
    have h7 : xs.tail.length ≤ xs.length := by
      cases xs <;> simp [List.length_tail]
    omega

theorem compareVersions_self (a : String) : compareVersions a a = 0 :=
  cmpParts_self _

theorem compareVersions_neg (a b : String) : compareVersions b a = - compareVersions a b :=
  cmpParts_neg _ _

theorem compareVersions_le_trans {a b c : String} (h1 : compareVersions a b ≤ 0)
    (h2 : compareVersions b c ≤ 0) : compareVersions a c ≤ 0 :=
  cmpParts_le_trans _ _ _ h1 h2

theorem compareVersions_le_of_not_lt {a b : String} (h : ¬ compareVersions a b < 0) :
    compareVersions b a ≤ 0 := by
  rw [compareVersions_neg]
  omega

/-! ## The stable sort picks the last-seen maximum -/

theorem insertSortedJS_ne_nil (x : String) (l : List String) : insertSortedJS x l ≠ [] := by
  cases l with
  | nil => simp [insertSortedJS]
  | cons y ys =>
    simp only [insertSortedJS]
    split <;> simp

theorem chain'_insertSortedJS (x : String) (l : List String)
    (hl : l.Chain' (fun a b => compareVersions a b ≤ 0)) :
    (insertSortedJS x l).Chain' (fun a b => compareVersions a b ≤ 0) := by
  induction l with
  | nil => simp [insertSortedJS]
  | cons y ys ih =>
    simp only [insertSortedJS]
    split
    · rename_i hlt
      exact List.Chain'.cons (by omega) hl
    · rename_i hge
      rw [List.chain'_cons']
      refine ⟨?_, ih hl.tail⟩
      intro z hz
      cases ys with
      | nil =>
        simp [insertSortedJS] at hz
        subst hz
        exact compareVersions_le_of_not_lt hge
      | cons w ws =>
        simp only [insertSortedJS] at hz
        split at hz
        · simp at hz
          subst hz
          exact compareVersions_le_of_not_lt hge
        · simp at hz
          subst hz
          have := List.chain'_cons.mp hl
          exact this.1

theorem chain'_le_getLast (y : String) (ys : List String)
    (h : (y :: ys).Chain' (fun a b => compareVersions a b ≤ 0)) :
    ∀ b, (y :: ys).getLast? = some b → compareVersions y b ≤ 0 := by
  induction ys generalizing y with
  | nil =>
    intro b hb
    simp at hb
    subst hb
    simp [compareVersions_self]
  | cons z zs ih =>
    intro b hb
    rw [List.getLast?_cons_cons] at hb
    have h1 := List.chain'_cons.mp h
    exact compareVersions_le_trans h1.1 (ih z h1.2 b hb)

theorem getLast?_insertSortedJS (x : String) (l : List String)
    (hl : l.Chain' (fun a b => compareVersions a b ≤ 0)) :
    (insertSortedJS x l).getLast? =
      some (match l.getLast? with
            | none => x
            | some b => if compareVersions b x ≤ 0 then x else b) := by
  induction l with
  | nil => simp [insertSortedJS]
  | cons y ys ih =>
    simp only [insertSortedJS]
    split
    · rename_i hlt
      rw [List.getLast?_cons_cons]
      obtain ⟨b, hb⟩ : ∃ b, (y :: ys).getLast? = some b :=
        Option.isSome_iff_exists.mp (List.getLast?_isSome.mpr (by simp))
      rw [hb]
      have hyb := chain'_le_getLast y ys hl b hb
      have hnb : ¬ compareVersions b x ≤ 0 := by
        intro hbx
        have h3 := compareVersions_le_trans hyb hbx
        have h4 := compareVersions_neg x y
        omega
      simp [hnb]
    · rename_i hge
      obtain ⟨hh, tt, he⟩ := List.exists_cons_of_ne_nil (insertSortedJS_ne_nil x ys)
      rw [he, List.getLast?_cons_cons, ← he, ih hl.tail]
      cases ys with
      | nil =>
        simp only [List.getLast?_singleton, List.getLast?_nil]
        rw [if_pos (compareVersions_le_of_not_lt hge)]
      | cons z zs =>
        rw [List.getLast?_cons_cons]

theorem chain'_sortJS (l : List String) :
    (sortJS l).Chain' (fun a b => compareVersions a b ≤ 0) := by
  have h : ∀ acc, acc.Chain' (fun a b => compareVersions a b ≤ 0) →
      (l.foldl (fun acc x => insertSortedJS x acc) acc).Chain'
        (fun a b => compareVersions a b ≤ 0) := by
    induction l with
    | nil => intro acc hacc; exact hacc
    | cons x xs ih =>
      intro acc hacc
      exact ih _ (chain'_insertSortedJS x acc hacc)
  exact h [] (by simp)

/-- `if (compareVersions(b, k) <= 0) pick k`: the accumulator step that the
last element of a stable ascending sort realizes (a later tie replaces an
earlier one). -/
def pickLater (b k : String) : String :=
  if compareVersions b k ≤ 0 then k else b

/-- The last element of the stable sorted key list, computed directly:
the maximum, with ties going to the last-seen key. -/
def jsBest : List String → Option String
  | [] => none
  | x :: xs => some (xs.foldl pickLater x)

theorem sortJS_getLast? (l : List String) : (sortJS l).getLast? = jsBest l := by
  induction l using List.reverseRecOn with
  | nil => simp [sortJS, jsBest]
  | append_singleton xs x ih =>
    have hstep : sortJS (xs ++ [x]) = insertSortedJS x (sortJS xs) := by
      simp [sortJS, List.foldl_append]
    rw [hstep, getLast?_insertSortedJS x (sortJS xs) (chain'_sortJS xs), ih]
    cases xs with
    | nil => simp [jsBest]
    | cons hh tt =>
      simp only [jsBest, List.cons_append, List.foldl_append, List.foldl_cons,
        List.foldl_nil, pickLater]

theorem foldl_pickLater_spec (xs : List String) (b0 : String) :
    compareVersions b0 (xs.foldl pickLater b0) ≤ 0 ∧
    (∀ j ∈ xs, compareVersions j (xs.foldl pickLater b0) ≤ 0) ∧
    ((xs.foldl pickLater b0 = b0 ∧
        ∀ j ∈ xs, compareVersions j (xs.foldl pickLater b0) < 0) ∨
      ∃ pre post, xs = pre ++ (xs.foldl pickLater b0) :: post ∧
        ∀ j ∈ post, compareVersions j (xs.foldl pickLater b0) < 0) := by
  induction xs generalizing b0 with
  | nil => simp [compareVersions_self]
  | cons k ks ih =>
    by_cases hk : compareVersions b0 k ≤ 0
    · have hpick : pickLater b0 k = k := if_pos hk
      simp only [List.foldl_cons, hpick]
      obtain ⟨ih1, ih2, ih3⟩ := ih k
      refine ⟨compareVersions_le_trans hk ih1, ?_, ?_⟩
      · intro j hj
        rcases List.mem_cons.mp hj with h1 | h1
        · subst h1; exact ih1
        · exact ih2 j h1
      · rcases ih3 with ⟨hbb, hstrict⟩ | ⟨pre, post, hsplit, hstrict⟩
        · right
          exact ⟨[], ks, by simp [hbb], hstrict⟩
        · right
          exact ⟨k :: pre, post, by rw [List.cons_append, ← hsplit], hstrict⟩
    · have hpick : pickLater b0 k = b0 := if_neg hk
      simp only [List.foldl_cons, hpick]
      obtain ⟨ih1, ih2, ih3⟩ := ih b0
      have hkb0 : compareVersions k b0 < 0 := by
        have hn := compareVersions_neg b0 k
        omega
      have hkb : compareVersions k (ks.foldl pickLater b0) ≤ 0 :=
        compareVersions_le_trans (by omega) ih1
      refine ⟨ih1, ?_, ?_⟩
      · intro j hj
        rcases List.mem_cons.mp hj with h1 | h1
        · subst h1; exact hkb
        · exact ih2 j h1
      · rcases ih3 with ⟨hbb, hstrict⟩ | ⟨pre, post, hsplit, hstrict⟩
        · left
          refine ⟨hbb, ?_⟩
          intro j hj
          rcases List.mem_cons.mp hj with h1 | h1
          · subst h1
            rw [hbb]
            exact hkb0
          · exact hstrict j h1
        · right
          exact ⟨k :: pre, post, by rw [List.cons_append, ← hsplit], hstrict⟩

theorem lookup_eq_some_of_mem_keys {V : Type} (tbl : List (String × V)) (k : String)
    (h : k ∈ tbl.map Prod.fst) : ∃ v, tbl.lookup k = some v := by
  induction tbl with
  | nil => simp at h
  | cons p t ih =>
    obtain ⟨pk, pv⟩ := p
    by_cases he : k = pk
    · have hbeq : (k == pk) = true := beq_iff_eq.mpr he
      exact ⟨pv, by simp [List.lookup, hbeq]⟩
    · have hbeq : (k == pk) = false := beq_eq_false_iff_ne.mpr he
      simp only [List.map_cons, List.mem_cons] at h
      rcases h with h1 | h1
      · exact absurd h1 he
      · rcases ih h1 with ⟨v, hv⟩
        exact ⟨v, by simp [List.lookup, hbeq, hv]⟩

/-! ## Claim C4: registry backfill -/

/-- The winner exactly as claim C4 words it: the highest existing version
key with ties kept by the *first-seen* key (only a strictly greater key
replaces the current winner). -/
def firstSeenHighestKey : List String → Option String
  | [] => none
  | x :: xs => some (xs.foldl (fun b k => if compareVersions b k < 0 then k else b) x)

/-- Claim C4, counterexample to its tie-breaking clause.  In the table
`{"1.0" ↦ 10, "1.0.0" ↦ 20}` the two keys compare equal under the
dotted-integer comparison, and the first-seen highest key is `"1.0"` with
value `10` — so the claim predicts the alias `"6.4.9"` gets value `10`.
The code's backfill instead maps the alias to `20`: JavaScript's
`Array.prototype.sort` is stable, so tied keys keep insertion order and
`available[available.length - 1]` is the *last*-seen highest key. -/
theorem C4_counterexample :
    compareVersions "1.0" "1.0.0" = 0 ∧
    firstSeenHighestKey (([("1.0", 10), ("1.0.0", 20)] : List (String × Nat)).map Prod.fst) =
      some "1.0" ∧
    ([("1.0", 10), ("1.0.0", 20)] : List (String × Nat)).lookup "1.0" = some 10 ∧
    (coerceModuleVersion [("1.0", (10 : Nat)), ("1.0.0", 20)] "6.4.9").lookup "6.4.9" =
      some 20 ∧
    (20 : Nat) ≠ 10 := by decide

/-- Claim C4 (amended): for every provider table with at least one version
and every alias `target` that is not already a key, the backfill appends
exactly the entry `target ↦ v`, leaving every pre-existing entry unchanged
(the original table is literally a prefix of the result), where `v` is the
value of a key `best` that is highest under dotted-integer-component
comparison (missing trailing components and components without digits
count as zero) with ties resolved to the **last-seen** among the highest
keys: every key enumerated after `best` compares strictly below it. -/
theorem C4_backfill_last_seen_max {V : Type} (tbl : List (String × V)) (target : String)
    (hmiss : tbl.lookup target = none) (hne : tbl ≠ []) :
    ∃ best v pre post,
      coerceModuleVersion tbl target = tbl ++ [(target, v)] ∧
      tbl.map Prod.fst = pre ++ best :: post ∧
      tbl.lookup best = some v ∧
      (∀ j ∈ tbl.map Prod.fst, compareVersions j best ≤ 0) ∧
      (∀ j ∈ post, compareVersions j best < 0) := by
  obtain ⟨p, t, hpt⟩ := List.exists_cons_of_ne_nil hne
  have hkeys : tbl.map Prod.fst = p.1 :: t.map Prod.fst := by rw [hpt]; rfl
  have hbest : (sortJS (tbl.map Prod.fst)).getLast? =
      some ((t.map Prod.fst).foldl pickLater p.1) := by
    rw [sortJS_getLast?, hkeys]
    rfl
  obtain ⟨h1, h2, h3⟩ := foldl_pickLater_spec (t.map Prod.fst) p.1
  set b := (t.map Prod.fst).foldl pickLater p.1 with hbdef
  have hmem : b ∈ tbl.map Prod.fst := by
    rw [hkeys]
    rcases h3 with ⟨hbb, _⟩ | ⟨pre, post, hsplit, _⟩
    · rw [hbb]
      exact List.mem_cons_self _ _
    · apply List.mem_cons_of_mem
      rw [hsplit]
      exact List.mem_append_right _ (List.mem_cons_self _ _)
  obtain ⟨v, hv⟩ := lookup_eq_some_of_mem_keys tbl b hmem
  have hmax : ∀ j ∈ tbl.map Prod.fst, compareVersions j b ≤ 0 := by
    intro j hj
    rw [hkeys] at hj
    rcases List.mem_cons.mp hj with hcase | hcase
    · rw [hcase]
      exact h1
    · exact h2 j hcase
  have hdec : ∃ pre post, tbl.map Prod.fst = pre ++ b :: post ∧
      ∀ j ∈ post, compareVersions j b < 0 := by
    rcases h3 with ⟨hbb, hstrict⟩ | ⟨pre, post, hsplit, hstrict⟩
    · exact ⟨[], t.map Prod.fst, by rw [hkeys, hbb]; rfl, hstrict⟩
    · exact ⟨p.1 :: pre, post, by rw [hkeys, hsplit]; rfl, hstrict⟩
  obtain ⟨pre, post, hsplit, hstrict⟩ := hdec
  refine ⟨b, v, pre, post, ?_, hsplit, hv, hmax, hstrict⟩
  simp only [coerceModuleVersion, hmiss, Option.isSome_none, Bool.false_eq_true,
    if_false, hbest, hv]

/-- Witness for C4: the concrete table `{"4.4.8" ↦ 1, "4.5.0" ↦ 2}` with the
missing alias `"4.4.9"` satisfies the hypotheses, and the amended theorem
applies to it. -/
theorem C4_witness :
    (([("4.4.8", 1), ("4.5.0", 2)] : List (String × Nat)).lookup "4.4.9" = none) ∧
    (([("4.4.8", 1), ("4.5.0", 2)] : List (String × Nat)) ≠ []) ∧
    ∃ best v pre post,
      coerceModuleVersion ([("4.4.8", 1), ("4.5.0", 2)] : List (String × Nat)) "4.4.9" =
        ([("4.4.8", 1), ("4.5.0", 2)] : List (String × Nat)) ++ [("4.4.9", v)] ∧
      ([("4.4.8", 1), ("4.5.0", 2)] : List (String × Nat)).map Prod.fst =
        pre ++ best :: post ∧
      ([("4.4.8", 1), ("4.5.0", 2)] : List (String × Nat)).lookup best = some v ∧
      (∀ j ∈ ([("4.4.8", 1), ("4.5.0", 2)] : List (String × Nat)).map Prod.fst,
        compareVersions j best ≤ 0) ∧
      (∀ j ∈ post, compareVersions j best < 0) :=
  ⟨by decide, by decide,
    C4_backfill_last_seen_max [("4.4.8", 1), ("4.5.0", 2)] "4.4.9" (by decide) (by decide)⟩

/-! ## Claim C1: `setModel` on the already-active model -/

/-- Claim C1, counterexample: on a Ready session with current model `"A"`
(engine handle `7`), `setModel "A"` is not a "no-op, already active" result:
its trace releases engine `7` and re-runs engine construction, the engine
handle changes, and it answers `"Model changed to: A"`.  `setModel`
(`index.ts` lines 311-333) has no target-equals-current early return. -/
theorem C1_counterexample :
    (setModel (fun _ => .ok 8) ["A"] "A" ⟨some "A", some 7, true, none⟩ =
      (.ok "Model changed to: A", ⟨some "A", some 8, true, none⟩,
        [.unload 7, .constructCall "A", .constructOk "A" 8])) ∧
    Ev.unload 7 ∈ (setModel (fun _ => .ok 8) ["A"] "A" ⟨some "A", some 7, true, none⟩).2.2 ∧
    Ev.constructCall "A" ∈
      (setModel (fun _ => .ok 8) ["A"] "A" ⟨some "A", some 7, true, none⟩).2.2 ∧
    (setModel (fun _ => .ok 8) ["A"] "A" ⟨some "A", some 7, true, none⟩).2.1 ≠
      (⟨some "A", some 7, true, none⟩ : ChatState) := by decide

/-- Claim C1 (amended): calling `setModel m` on a Ready session whose
current model is already `m` (engine present, initialized, no in-flight
initialization) is **not** a no-op: it unloads the current engine handle,
re-runs engine construction for `m`, and — because the session was
initialized — answers `"Model changed to: m"`; after a successful
construction the session is Ready on `m` with the freshly built handle. -/
theorem C1_same_model_reinitializes (construct : String → Except String Nat)
    (models : List String) (m : String) (g e : Nat)
    (hvalid : isValidWebLLMModel models m = true)
    (hok : construct m = .ok e) :
    setModel construct models m ⟨some m, some g, true, none⟩ =
      (.ok ("Model changed to: " ++ m), ⟨some m, some e, true, none⟩,
        [.unload g, .constructCall m, .constructOk m e]) := by
  simp [setModel, initializeModel, runConstruction, hvalid, hok]

/-- Witness for C1 at model `"A"`, old engine `7`, new engine `8`. -/
theorem C1_witness :
    isValidWebLLMModel ["A"] "A" = true ∧
    (fun _ => (.ok 8 : Except String Nat)) "A" = .ok 8 ∧
    setModel (fun _ => .ok 8) ["A"] "A" ⟨some "A", some 7, true, none⟩ =
      (.ok ("Model changed to: " ++ "A"), ⟨some "A", some 8, true, none⟩,
        [.unload 7, .constructCall "A", .constructOk "A" 8]) :=
  ⟨by decide, by decide,
    C1_same_model_reinitializes (fun _ => .ok 8) ["A"] "A" 7 8 (by decide) (by decide)⟩

/-! ## Claim C2: construction failure and retry -/

/-- Claim C2 (code bug): start from a fresh session and let engine
construction for the valid model `"M"` fail with `"boom"`.  The failure does
propagate and the session is left not Ready — but the statement
`this.initializationPromise = null` after the `await` (`index.ts` line 304)
is never reached on the rejection path, so the rejected promise stays in the
field.  A retry — even with a construction oracle that would now succeed —
awaits that stale rejected promise and rethrows the old failure with an
empty event trace, i.e. without starting any fresh engine construction;
the same happens through `setModel`.  This contradicts the claim that no
in-flight initialization remains and that a retry can construct afresh. -/
theorem C2_failure_leaves_stale_promise :
    (initializeModel (fun _ => .error "boom") ["M"] "M" ⟨none, none, false, none⟩ =
      (.error "boom", ⟨some "M", none, false, some (.error "boom")⟩,
        [.constructCall "M", .constructFail "M" "boom"])) ∧
    (initializeModel (fun _ => .ok 1) ["M"] "M"
        ⟨some "M", none, false, some (.error "boom")⟩ =
      (.error "boom", ⟨some "M", none, false, some (.error "boom")⟩, [])) ∧
    (setModel (fun _ => .ok 1) ["M"] "M"
        ⟨some "M", none, false, some (.error "boom")⟩ =
      (.error "boom", ⟨some "M", none, false, some (.error "boom")⟩, [])) := by decide

/-! ## Claim C5: streaming order and accumulation -/

/-- The concatenation of a list of strings, as `send`'s `reply` accumulates
it left to right. -/
def concatStrings (l : List String) : String :=
  l.foldl (fun a b => a ++ b) ""

theorem concatStrings_cons (t : String) (l : List String) :
    concatStrings (t :: l) = t ++ concatStrings l := by
  have h : ∀ (l : List String) (a b : String),
      l.foldl (fun x y => x ++ y) (a ++ b) = a ++ l.foldl (fun x y => x ++ y) b := by
    intro l
    induction l with
    | nil => intro a b; rfl
    | cons s rest ih =>
      intro a b
      simp only [List.foldl_cons]
      rw [String.append_assoc]
      exact ih a (b ++ s)
  have h2 := h l t ""
  simpa [concatStrings, String.append_empty, String.empty_append] using h2

theorem processChunks_all_nonempty (chunks : List Chunk)
    (h : ∀ c ∈ chunks, chunkContent c ≠ "") :
    processChunks chunks =
      (chunks.map chunkContent, concatStrings (chunks.map chunkContent)) := by
  have key : ∀ (chunks : List Chunk), (∀ c ∈ chunks, chunkContent c ≠ "") →
      ∀ cbs racc, chunks.foldl
        (fun acc c =>
          let content := chunkContent c
          if content ≠ "" then (acc.1 ++ [content], acc.2 ++ content) else acc)
        (cbs, racc) =
      (cbs ++ chunks.map chunkContent, racc ++ concatStrings (chunks.map chunkContent)) := by
    intro chunks
    induction chunks with
    | nil =>
      intro _ cbs racc
      simp [concatStrings, String.append_empty]
    | cons c cs ih =>
      intro hall cbs racc
      have hc : chunkContent c ≠ "" := hall c (List.mem_cons_self _ _)
      simp only [List.foldl_cons, if_pos hc]
      rw [ih (fun x hx => hall x (List.mem_cons_of_mem _ hx)) (cbs ++ [chunkContent c])
        (racc ++ chunkContent c)]
      simp [List.map_cons, concatStrings_cons, List.append_assoc, String.append_assoc]
  have h2 := key chunks h [] ""
  simpa [processChunks, String.empty_append] using h2

/-- Claim C5: for a Ready session (initialized, engine present) and any
stream of chunks each carrying non-empty text, `send` invokes the chunk
callback exactly once per chunk, in emission order, with that chunk's text,
and resolves with the concatenation of the chunks; the session state is
untouched. -/
theorem C5_streaming_order (construct : String → Except String Nat)
    (models : List String) (defaultModel prompt : String) (s : ChatState) (g : Nat)
    (chunks : List Chunk)
    (hinit : s.initialized = true) (heng : s.engine = some g)
    (hne : ∀ c ∈ chunks, ∃ t, c.content = some t ∧ t ≠ "") :
    send construct models defaultModel s prompt chunks =
      (.ok (chunks.map chunkContent, concatStrings (chunks.map chunkContent)), s,
        [Ev.streamRequest prompt]) := by
  have hall : ∀ c ∈ chunks, chunkContent c ≠ "" := by
    intro c hc
    rcases hne c hc with ⟨t, ht, htne⟩
    simp [chunkContent, ht, htne]
  simp [send, hinit, heng, processChunks_all_nonempty chunks hall]

/-- Witness for C5: the spec's own example, chunks `"a"`, `"b"`, `"c"`. -/
theorem C5_witness :
    ((⟨some "M", some 7, true, none⟩ : ChatState).initialized = true) ∧
    ((⟨some "M", some 7, true, none⟩ : ChatState).engine = some 7) ∧
    (∀ c ∈ [(⟨some "a"⟩ : Chunk), ⟨some "b"⟩, ⟨some "c"⟩],
      ∃ t, c.content = some t ∧ t ≠ "") ∧
    send (fun _ => .ok 1) ["M"] "M" ⟨some "M", some 7, true, none⟩ "hi"
        [⟨some "a"⟩, ⟨some "b"⟩, ⟨some "c"⟩] =
      (.ok ([(⟨some "a"⟩ : Chunk), ⟨some "b"⟩, ⟨some "c"⟩].map chunkContent,
        concatStrings ([(⟨some "a"⟩ : Chunk), ⟨some "b"⟩, ⟨some "c"⟩].map chunkContent)),
        ⟨some "M", some 7, true, none⟩, [Ev.streamRequest "hi"]) :=
  ⟨rfl, rfl,
    by
      intro c hc
      simp only [List.mem_cons, List.not_mem_nil, or_false] at hc
      rcases hc with h | h | h <;> subst h
      · exact ⟨"a", rfl, by decide⟩
      · exact ⟨"b", rfl, by decide⟩
      · exact ⟨"c", rfl, by decide⟩,
    C5_streaming_order (fun _ => .ok 1) ["M"] "M" "hi" ⟨some "M", some 7, true, none⟩ 7
      [⟨some "a"⟩, ⟨some "b"⟩, ⟨some "c"⟩] rfl rfl
      (by
        intro c hc
        simp only [List.mem_cons, List.not_mem_nil, or_false] at hc
        rcases hc with h | h | h <;> subst h
        · exact ⟨"a", rfl, by decide⟩
        · exact ⟨"b", rfl, by decide⟩
        · exact ⟨"c", rfl, by decide⟩)⟩

/-! ## Claim C7: switch releases the old engine before constructing the new -/

/-- How an event changes the number of resident engine instances: an unload
releases one; a completed construction adds one. -/
def residentDelta : Ev → Int
  | .unload _ => -1
  | .constructOk _ _ => 1
  | _ => 0

/-- The maximum number of resident engines over every prefix of a trace,
starting from `cur`. -/
def maxResident : Int → List Ev → Int
  | cur, [] => cur
  | cur, e :: tr => max cur (maxResident (cur + residentDelta e) tr)

/-- Claim C7: switching a Ready session on model `a` (engine `g`) to a
different model `b` produces exactly the trace
`unload g, constructCall b, constructOk b e`: the old handle's teardown
completes before the construction call for `b` begins, and — starting from
the one resident engine `g` — at no prefix of the trace is more than one
engine resident. -/
theorem C7_release_before_construct (construct : String → Except String Nat)
    (models : List String) (a b : String) (g e : Nat)
    (hvalid : isValidWebLLMModel models b = true)
    (hok : construct b = .ok e) (_hab : b ≠ a) :
    setModel construct models b ⟨some a, some g, true, none⟩ =
      (.ok ("Model changed to: " ++ b), ⟨some b, some e, true, none⟩,
        [.unload g, .constructCall b, .constructOk b e]) ∧
    maxResident 1 [Ev.unload g, Ev.constructCall b, Ev.constructOk b e] = 1 := by
  constructor
  · simp [setModel, initializeModel, runConstruction, hvalid, hok]
  · simp only [maxResident, residentDelta]
    norm_num

/-- Witness for C7: switch from `"A"` (engine `7`) to `"B"` (engine `8`). -/
theorem C7_witness :
    isValidWebLLMModel ["A", "B"] "B" = true ∧
    (fun _ => (.ok 8 : Except String Nat)) "B" = .ok 8 ∧
    ("B" : String) ≠ "A" ∧
    (setModel (fun _ => .ok 8) ["A", "B"] "B" ⟨some "A", some 7, true, none⟩ =
      (.ok ("Model changed to: " ++ "B"), ⟨some "B", some 8, true, none⟩,
        [.unload 7, .constructCall "B", .constructOk "B" 8]) ∧
    maxResident 1 [Ev.unload 7, Ev.constructCall "B", Ev.constructOk "B" 8] = 1) :=
  ⟨by decide, by decide, by decide,
    C7_release_before_construct (fun _ => .ok 8) ["A", "B"] "A" "B" 7 8
      (by decide) (by decide) (by decide)⟩

/-! ## Claim C10: invalid model name rejects before any mutation -/

/-- Claim C10: for any name not in the catalog, `setModel` rejects with the
invalid-model error before performing any mutation: the state is returned
unchanged (engine, `modelName`, `initialized`, in-flight promise all as they
were) and the event trace is empty (in particular, no unload). -/
theorem C10_invalid_model_atomic (construct : String → Except String Nat)
    (models : List String) (n : String) (s : ChatState)
    (hinvalid : isValidWebLLMModel models n = false) :
    setModel construct models n s = (.error ("Invalid model: " ++ n), s, []) := by
  simp [setModel, hinvalid]

/-- Witness for C10: a name outside the catalog, on a Ready session. -/
theorem C10_witness :
    isValidWebLLMModel ["A"] "nope" = false ∧
    setModel (fun _ => .ok 9) ["A"] "nope" ⟨some "A", some 7, true, none⟩ =
      (.error ("Invalid model: " ++ "nope"), ⟨some "A", some 7, true, none⟩, []) :=
  ⟨by decide,
    C10_invalid_model_atomic (fun _ => .ok 9) ["A"] "nope"
      ⟨some "A", some 7, true, none⟩ (by decide)⟩

/-! ## Claim C6: resolver unwrap -/

theorem awaitVal_eq_self (v : JSVal) (h : isThenable v = false) : awaitVal v = v := by
  cases v <;> simp_all [isThenable, awaitVal]

/-- Claim C6: for any plain value `v` (neither a thenable nor a callable),
resolving a provider whose selected (first-enumerated) version's factory
returns (1) `v` directly, (2) a deferred settling to `v`, or (3) a deferred
settling to a zero-argument callable returning `v`, yields the same `v` in
all three cases: `importShared` awaits a thenable factory result and invokes
a callable settled value exactly once more. -/
theorem C6_resolver_unwrap (v : JSVal) (pkg verKey : String)
    (hthen : isThenable v = false) (hfun : isFunction v = false) :
    importShared (some [(pkg, [(verKey, ⟨some fun _ => v⟩)])]) none pkg = .ok v ∧
    importShared (some [(pkg, [(verKey, ⟨some fun _ => .promise v⟩)])]) none pkg = .ok v ∧
    importShared (some [(pkg, [(verKey, ⟨some fun _ => .promise (.func v)⟩)])]) none pkg
      = .ok v := by
  refine ⟨?_, ?_, ?_⟩
  · simp [importShared, List.lookup, hthen, hfun]
  · simp [importShared, List.lookup, isThenable, awaitVal, awaitVal_eq_self v hthen, hfun]
  · simp [importShared, List.lookup, isThenable, awaitVal, awaitVal_eq_self, isFunction,
      callVal]

/-- Witness for C6 at the plain value `obj 42` in provider `"react"`. -/
theorem C6_witness :
    isThenable (.obj 42) = false ∧ isFunction (.obj 42) = false ∧
    (importShared (some [("react", [("18.2.0", ⟨some fun _ => .obj 42⟩)])]) none "react"
        = .ok (.obj 42) ∧
    importShared (some [("react", [("18.2.0", ⟨some fun _ => .promise (.obj 42)⟩)])]) none
        "react" = .ok (.obj 42) ∧
    importShared (some [("react", [("18.2.0", ⟨some fun _ =>
        .promise (.func (.obj 42))⟩)])]) none "react" = .ok (.obj 42)) :=
  ⟨rfl, rfl, C6_resolver_unwrap (.obj 42) "react" "18.2.0" rfl rfl⟩

/-! ## Claim C8: the `list` command filter -/

theorem jsToLower_ne_empty {F : String} (h : F ≠ "") : jsToLower F ≠ "" := by
  intro hc
  apply h
  apply String.ext
  have h1 : (jsToLower F).data = F.data.map Char.toLower := rfl
  rw [hc] at h1
  have h2 : F.data.map Char.toLower = [] := h1.symm
  simpa using List.map_eq_nil_iff.mp h2

/-- Claim C8: for every non-empty filter string `F`, the `list F` command's
result set contains exactly the catalog entries whose (lowercased) id
contains the lowercased `F` as a substring; when no entry matches, the
response is the no-match message reporting the total catalog size; and with
no filter, the result set is the whole catalog. -/
theorem C8_list_filter (models : List String) (F : String) (hF : F ≠ "") :
    (∀ m, m ∈ listFiltered models (some F) ↔
      m ∈ models ∧ containsSub (jsToLower m).data (jsToLower F).data = true) ∧
    (listFiltered models (some F) = [] →
      handleMagicList models (some F) =
        "No models found matching \"" ++ jsToLower F ++
          "\".\n\nUse \"%chat list\" to see all " ++ toString models.length
          ++ " available models.") ∧
    listFiltered models none = models := by
  have hlow := jsToLower_ne_empty hF
  refine ⟨?_, ?_, ?_⟩
  · intro m
    simp [listFiltered, hlow, List.mem_filter]
  · intro hempty
    simp [handleMagicList, hempty]
  · simp [listFiltered]

/-- Witness for C8: the spec's own example, filter `"LLAMA"` (uppercase) on
a small catalog. -/
theorem C8_witness :
    ("LLAMA" : String) ≠ "" ∧
    ((∀ m, m ∈ listFiltered ["Llama-3-8B", "Phi-3-mini"] (some "LLAMA") ↔
      m ∈ ["Llama-3-8B", "Phi-3-mini"] ∧
        containsSub (jsToLower m).data (jsToLower "LLAMA").data = true) ∧
    (listFiltered ["Llama-3-8B", "Phi-3-mini"] (some "LLAMA") = [] →
      handleMagicList ["Llama-3-8B", "Phi-3-mini"] (some "LLAMA") =
        "No models found matching \"" ++ jsToLower "LLAMA" ++
          "\".\n\nUse \"%chat list\" to see all "
          ++ toString (["Llama-3-8B", "Phi-3-mini"] : List String).length
          ++ " available models.") ∧
    listFiltered ["Llama-3-8B", "Phi-3-mini"] none = ["Llama-3-8B", "Phi-3-mini"]) :=
  ⟨by decide, C8_list_filter ["Llama-3-8B", "Phi-3-mini"] "LLAMA" (by decide)⟩

/-! ## Claim C9: unknown bundle ids -/

/-- Claim C9: any module id other than the two accepted aliases `"./index"`
and `"./extension"` makes `container.get` fail with the unknown-module
error, with the container's stored shared scope (its only state) returned
unchanged — `get` performs no seeding; and both accepted aliases resolve to
the same plugin bundle loader, likewise leaving the state unchanged. -/
theorem C9_unknown_bundle (st : Option ShareScopeT) (module : String)
    (h1 : module ≠ "./index") (h2 : module ≠ "./extension") :
    containerGet st module =
      (.error ("[webllm-chat-kernel/federation] Unknown module: " ++ module), st) ∧
    containerGet st "./index" = (.ok BundleLoader.pluginModule, st) ∧
    containerGet st "./extension" = (.ok BundleLoader.pluginModule, st) ∧
    (containerGet st "./index").1 = (containerGet st "./extension").1 := by
  refine ⟨?_, by simp [containerGet], by simp [containerGet], by simp [containerGet]⟩
  simp [containerGet, h1, h2]

/-- Witness for C9 at the unknown id `"foo"` with an empty container state. -/
theorem C9_witness :
    ("foo" : String) ≠ "./index" ∧ ("foo" : String) ≠ "./extension" ∧
    (containerGet none "foo" =
      (.error ("[webllm-chat-kernel/federation] Unknown module: " ++ "foo"), none) ∧
    containerGet none "./index" = (.ok BundleLoader.pluginModule, none) ∧
    containerGet none "./extension" = (.ok BundleLoader.pluginModule, none) ∧
    (containerGet none "./index").1 = (containerGet none "./extension").1) :=
  ⟨by decide, by decide, C9_unknown_bundle none "foo" (by decide) (by decide)⟩

/-! ## Claim C3: single flight for two interleaved `initializeModel` calls -/

/-- A reachable non-initial configuration of the two-task system, described
by the two program counters, whether the construction has resolved, and
whether the owner has already cleared the promise field.  All such
configurations share: `modelName = m`, one promise (id 0) created, exactly
one `CreateMLCEngine` call. -/
def raceShape (m : String) (e : Nat) (pc1 pc2 : InitPc) (resolved cleared : Bool) :
    RaceConfig :=
  { pcA := pc1, pcB := pc2, modelName := some m,
    engine := if resolved then some e else none,
    initialized := resolved,
    initializationPromise := if cleared then none else some 0,
    flight := if resolved then none else some 0,
    settled := if resolved then [0] else [],
    nextId := 1, constructCalls := 1, overlapViolated := false }

/-- Inductive invariant: every reachable configuration either has the
overlap ghost flag set (the schedule stopped being an interleaving), or is
one of the finitely many interleaved-run configurations. -/
def raceGood (m : String) (e : Nat) (c : RaceConfig) : Prop :=
  c.overlapViolated = true ∨
  c = raceInit ∨
  c = raceShape m e (.awaitOwn 0) .start false false ∨
  c = raceShape m e .start (.awaitOwn 0) false false ∨
  c = raceShape m e (.awaitOwn 0) (.awaitJoin 0) false false ∨
  c = raceShape m e (.awaitJoin 0) (.awaitOwn 0) false false ∨
  c = raceShape m e (.awaitOwn 0) .start true false ∨
  c = raceShape m e .start (.awaitOwn 0) true false ∨
  c = raceShape m e (.awaitOwn 0) (.awaitJoin 0) true false ∨
  c = raceShape m e (.awaitJoin 0) (.awaitOwn 0) true false ∨
  c = raceShape m e .finished (.awaitJoin 0) true true ∨
  c = raceShape m e (.awaitJoin 0) .finished true true ∨
  c = raceShape m e (.awaitOwn 0) .finished true false ∨
  c = raceShape m e .finished (.awaitOwn 0) true false ∨
  c = raceShape m e .finished .start true true ∨
  c = raceShape m e .start .finished true true ∨
  c = raceShape m e .finished .finished true true

theorem taskEntry_violated (models : List String) (m : String) (od : Bool) (c : RaceConfig)
    (h : c.overlapViolated = true) : (taskEntry models m od c).2.overlapViolated = true := by
  have hbase : (if od then { c with overlapViolated := true } else c).overlapViolated
      = true := by
    cases od <;> simp [h]
  unfold taskEntry
  by_cases hv : isValidWebLLMModel models m
  · cases hp : (if od then { c with overlapViolated := true } else c).initializationPromise
      with
    | some k =>
      by_cases hm : (if od then { c with overlapViolated := true } else c).modelName = some m
        <;> simp [hv, hp, hm, hbase]
    | none => simp [hv, hp, startConstruction, hbase]
  · simp [hv, hbase]

theorem taskStep_violated (models : List String) (m : String) (od : Bool) (pc : InitPc)
    (c : RaceConfig) (h : c.overlapViolated = true) :
    (taskStep models m od pc c).2.overlapViolated = true := by
  cases pc with
  | start => exact taskEntry_violated models m od c h
  | awaitOwn k =>
    by_cases hk : k ∈ c.settled <;> simp [taskStep, hk, h]
  | awaitJoin k =>
    by_cases hk : k ∈ c.settled <;> simp [taskStep, hk, h]
  | awaitCross k =>
    by_cases hk : k ∈ c.settled <;> simp [taskStep, hk, startConstruction, h]
  | finished => simpa [taskStep] using h
  | invalid => simpa [taskStep] using h

theorem raceStep_violated (models : List String) (m : String) (e : Nat) (c : RaceConfig)
    (ch : RaceChoice) (h : c.overlapViolated = true) :
    (raceStep models m e c ch).overlapViolated = true := by
  cases ch with
  | taskA => simpa [raceStep] using taskStep_violated models m c.pcB.isDone c.pcA c h
  | taskB => simpa [raceStep] using taskStep_violated models m c.pcA.isDone c.pcB c h
  | engineResolve =>
    cases hf : c.flight <;> simp [raceStep, engineStep, hf, h]

theorem raceGood_step (models : List String) (m : String) (e : Nat)
    (hv : isValidWebLLMModel models m = true) (c : RaceConfig) (ch : RaceChoice)
    (h : raceGood m e c) : raceGood m e (raceStep models m e c ch) := by
  rcases h with h | h | h | h | h | h | h | h | h | h | h | h | h | h | h | h | h
  · exact Or.inl (raceStep_violated models m e c ch h)
  all_goals subst h
  all_goals cases ch
  all_goals simp [raceGood, raceStep, taskStep, taskEntry, startConstruction, engineStep,
    InitPc.isDone, raceShape, raceInit, hv]

theorem raceGood_run (models : List String) (m : String) (e : Nat)
    (hv : isValidWebLLMModel models m = true) (chs : List RaceChoice) :
    raceGood m e (raceRun models m e chs) := by
  have hgen : ∀ (c : RaceConfig), raceGood m e c →
      raceGood m e (chs.foldl (raceStep models m e) c) := by
    induction chs with
    | nil => intro c hc; exact hc
    | cons ch rest ih =>
      intro c hc
      exact ih _ (raceGood_step models m e hv c ch hc)
  exact hgen raceInit (Or.inr (Or.inl rfl))

/-- Claim C3: take any schedule of two invocations of `initializeModel m`
on one fresh session (with `m` in the catalog and the engine construction
resolving with handle `e`).  If both invocations completed and the schedule
genuinely interleaved them (neither invocation entered only after the other
had already returned — the ghost flag is clear), then exactly one
`CreateMLCEngine` call was made, and on completion the session is Ready:
`initialized`, `modelName = m`, the engine handle present, and no in-flight
initialization remains. -/
theorem C3_single_flight (models : List String) (m : String) (e : Nat)
    (chs : List RaceChoice) (hv : isValidWebLLMModel models m = true)
    (hA : (raceRun models m e chs).pcA = .finished)
    (hB : (raceRun models m e chs).pcB = .finished)
    (hoverlap : (raceRun models m e chs).overlapViolated = false) :
    (raceRun models m e chs).constructCalls = 1 ∧
    (raceRun models m e chs).initialized = true ∧
    (raceRun models m e chs).modelName = some m ∧
    (raceRun models m e chs).engine = some e ∧
    (raceRun models m e chs).initializationPromise = none := by
  have hg := raceGood_run models m e hv chs
  rcases hg with h | h | h | h | h | h | h | h | h | h | h | h | h | h | h | h | h
  · rw [h] at hoverlap
    exact absurd hoverlap (by simp)
  all_goals try (rw [h] at hA; simp [raceInit, raceShape] at hA)
  all_goals try (rw [h] at hB; simp [raceShape] at hB)
  rw [h]
  simp [raceShape]

/-- Witness for C3: the canonical interleaving — task A starts the
construction, task B joins it while it is in flight, the engine resolves,
then both continuations run. -/
theorem C3_witness :
    isValidWebLLMModel ["M"] "M" = true ∧
    (raceRun ["M"] "M" 5 [.taskA, .taskB, .engineResolve, .taskA, .taskB]).pcA
      = .finished ∧
    (raceRun ["M"] "M" 5 [.taskA, .taskB, .engineResolve, .taskA, .taskB]).pcB
      = .finished ∧
    (raceRun ["M"] "M" 5 [.taskA, .taskB, .engineResolve, .taskA, .taskB]).overlapViolated
      = false ∧
    ((raceRun ["M"] "M" 5 [.taskA, .taskB, .engineResolve, .taskA, .taskB]).constructCalls
        = 1 ∧
      (raceRun ["M"] "M" 5 [.taskA, .taskB, .engineResolve, .taskA, .taskB]).initialized
        = true ∧
      (raceRun ["M"] "M" 5 [.taskA, .taskB, .engineResolve, .taskA, .taskB]).modelName
        = some "M" ∧
      (raceRun ["M"] "M" 5 [.taskA, .taskB, .engineResolve, .taskA, .taskB]).engine
        = some 5 ∧
      RaceConfig.initializationPromise
        (raceRun ["M"] "M" 5 [.taskA, .taskB, .engineResolve, .taskA, .taskB]) = none) :=
  ⟨by decide, by decide, by decide, by decide,
    C3_single_flight ["M"] "M" 5 [.taskA, .taskB, .engineResolve, .taskA, .taskB]
      (by decide) (by decide) (by decide) (by decide)⟩
